/-
Verification of the turbo-translate core: the voice-activity segmenter
(recorder.py), the single-flight segment dispatch (main.py), the speaker
registry and identification service (docker/diarization/app.py), and the
transcription/diarization/translation merge pipeline (api.py).

Real-valued audio levels and timestamps are embedded as rationals where the
code only compares and adds them; cosine similarity, which divides by a
square root, is embedded over the reals.
-/
import Mathlib

namespace TurboTranslate

/-! ## Pipeline data model (api.py) -/

/-- The `APIError` exception from api.py: every client failure is collapsed into this
exception type, carrying a message. -/
structure APIError where
  msg : String
  deriving Repr, DecidableEq

/-- The `TranscriptionSegment` dataclass from api.py: text with start/end times
and an optional speaker, filled in later by diarization. -/
structure TranscriptionSegment where
  text : String
  tstart : ℚ
  tend : ℚ
  speaker : Option Int := none
  deriving Repr, DecidableEq

/-- The `DiarizedTranscription` dataclass from api.py. -/
structure DiarizedTranscription where
  segments : List TranscriptionSegment
  language : String
  duration : ℚ
  deriving Repr, DecidableEq

/-- One diarization-service span: a `{start, end, speaker}` JSON object.
The `speaker` key may be absent (the code reads it with
`diar_seg.get("speaker", 0)`), hence an `Option`.  The label type is a
parameter: the service sends integers, while examples in the spec use
letters. -/
structure DiarSpan (α : Type) where
  dstart : ℚ
  dend : ℚ
  speaker : Option α
  deriving Repr, DecidableEq

/-- The configured language pair used by `TranslationPipeline.process_audio`. -/
structure PipeConfig where
  source_language : String
  target_language : String
  deriving Repr, DecidableEq

/-- One element of the `results` list built by `process_audio`. -/
structure MergedResult where
  text : String
  translation : String
  rstart : ℚ
  rend : ℚ
  speaker_id : Int
  language : String
  deriving Repr, DecidableEq

/-- The speaker-assignment loop of `process_audio` (api.py lines 341-346):
`speaker_id` starts at the default `d`; the first diarization span whose
closed `[start, end]` interval contains the midpoint `mid` supplies its
`speaker` value (defaulting to `d` if the key is absent) and the loop
breaks; if no span contains the midpoint the default stands. -/
def resolveSpeaker {α : Type} (d : α) (mid : ℚ) : List (DiarSpan α) → α
  | [] => d
  | ds :: rest =>
    if ds.dstart ≤ mid ∧ mid ≤ ds.dend then ds.speaker.getD d
    else resolveSpeaker d mid rest

/-- Left-to-right effectful map in the `Except` monad, mirroring a Python
loop that appends to a results list and lets the first raised `APIError`
propagate, discarding everything accumulated so far. -/
def mapMExcept {ε α β : Type} (f : α → Except ε β) : List α → Except ε (List β)
  | [] => .ok []
  | x :: xs => do
    let y ← f x
    let ys ← mapMExcept f xs
    .ok (y :: ys)

/-- The per-span translation call of `process_audio` (api.py lines 348-359):
if the detected language equals the configured target language, translate
back to the configured source language; otherwise translate into the
target language.  `translate` stands for `TranslationClient.translate`,
a blocking network call that either returns text or raises `APIError`. -/
def translateCall (translate : String → String → String → Except APIError String)
    (cfg : PipeConfig) (detected : String) (text : String) : Except APIError String :=
  if detected = cfg.target_language then translate text detected cfg.source_language
  else translate text detected cfg.target_language

/-- The body of the `for seg in transcription.segments` loop of
`process_audio`: resolve the speaker by midpoint containment, translate,
and assemble one result record. -/
def mergeSegment (cfg : PipeConfig)
    (translate : String → String → String → Except APIError String)
    (detected : String) (diar : List (DiarSpan Int))
    (seg : TranscriptionSegment) : Except APIError MergedResult := do
  let speaker_id := resolveSpeaker 0 ((seg.tstart + seg.tend) / 2) diar
  let translation ← translateCall translate cfg detected seg.text
  .ok ⟨seg.text, translation, seg.tstart, seg.tend, speaker_id, detected⟩

/-- The pipeline entry `TranslationPipeline.process_audio` (api.py lines 312-370).  The three
service calls are passed as oracles: `transcribeR` is the outcome of the
transcription call for this segment, `diarizeR` the outcome of the
diarization call, `translate` the translation client.  Transcription
failure propagates; diarization failure is replaced by a single synthetic
span `{start: 0, end: transcription.duration, speaker: 0}`; each segment
is then merged and translated in order. -/
def process_audio (cfg : PipeConfig)
    (transcribeR : Except APIError DiarizedTranscription)
    (diarizeR : Except APIError (List (DiarSpan Int)))
    (translate : String → String → String → Except APIError String) :
    Except APIError (List MergedResult) := do
  let transcription ← transcribeR
  let diarization_segments :=
    match diarizeR with
    | .ok segs => segs
    | .error _ => [⟨0, transcription.duration, some 0⟩]
  mapMExcept (mergeSegment cfg translate transcription.language diarization_segments)
    transcription.segments

/-! ## Whisper response parsing (api.py, `WhisperClient.transcribe`) -/

/-- One raw element of the `segments` array of a verbose-json Whisper
response; every key is read with `.get(..., default)`, hence `Option`s. -/
structure RawSegment where
  text : Option String
  rstart : Option ℚ
  rend : Option ℚ
  deriving Repr, DecidableEq

/-- The decoded JSON body used by `WhisperClient.transcribe`. -/
structure WhisperJson where
  segments : List RawSegment
  text : Option String
  duration : Option ℚ
  language : Option String
  deriving Repr, DecidableEq

/-- Python truthiness of `result.get("text")`: an absent key or an empty
string is falsy. -/
def pyTruthyStr : Option String → Bool
  | none => false
  | some s => s ≠ ""

/-- Python `a or b` for an optional string `a`: an absent or empty string
falls through to `b`. -/
def pyOrStr : Option String → String → String
  | none, b => b
  | some a, b => if a = "" then b else a

/-- The response-handling tail of `WhisperClient.transcribe` (api.py lines
74-100): map the `segments` array to `TranscriptionSegment`s with stripped
text and defaulted times; if that list is empty and the top-level `text`
is truthy, synthesize a single segment spanning `[0, duration]`; package
with the reported (or requested, or "unknown") language and duration. -/
def parseTranscription (result : WhisperJson) (language : Option String) :
    DiarizedTranscription :=
  let segments := result.segments.map (fun seg =>
    ⟨(seg.text.getD "").trim, seg.rstart.getD 0, seg.rend.getD 0, none⟩)
  let segments :=
    match result.text with
    | some t =>
      if segments.isEmpty ∧ t ≠ "" then
        [⟨t.trim, 0, result.duration.getD 0, none⟩]
      else segments
    | none => segments
  ⟨segments, pyOrStr result.language (pyOrStr language "unknown"),
    result.duration.getD 0⟩

/-! ## Single-flight segment dispatch (main.py, `MainWindow._on_segment_ready`) -/

/-- The observable state of the segment dispatcher: the `_processing` busy
flag, a count of segments accepted for processing, and the number of
pipeline worker threads currently running. -/
structure UI where
  processing : Bool
  processed : Nat
  running : Nat
  deriving Repr, DecidableEq

/-- Events at the dispatch boundary: a segment callback firing
(`_on_segment_ready`), or a worker's `finally` block clearing the flag as
the worker finishes. -/
inductive UIEvent where
  | segmentReady
  | workerDone
  deriving Repr, DecidableEq

/-- Initial state: `_processing = False`, nothing processed, no worker. -/
def uiInit : UI := ⟨false, 0, 0⟩

/-- The handler `_on_segment_ready` (main.py lines 588-610) and worker completion:
a segment arriving while `_processing` is set returns immediately (the
segment is dropped, no state change, nothing queued); otherwise the flag
is set and one worker thread is spawned.  A finishing worker clears the
flag. -/
def uiStep (s : UI) : UIEvent → UI
  | .segmentReady =>
    if s.processing then s
    else ⟨true, s.processed + 1, s.running + 1⟩
  | .workerDone => ⟨false, s.processed, s.running - 1⟩

/-- States reachable in a capture session: segment callbacks may fire at
any time; a worker can finish only while one is running. -/
inductive UIReachable : UI → Prop
  | init : UIReachable uiInit
  | seg {s : UI} : UIReachable s → UIReachable (uiStep s .segmentReady)
  | done {s : UI} : UIReachable s → 0 < s.running → UIReachable (uiStep s .workerDone)

/-! ## Voice-activity segmenter (recorder.py, `AudioRecorder._continuous_loop`) -/

/-- One captured frame: a block of signed 16-bit PCM samples. -/
abbrev Frame : Type := List Int

/-- The `AudioRecorder` parameters that drive the continuous loop. -/
structure RecCfg where
  sample_rate : ℕ
  chunk_size : ℕ
  gain : ℚ
  silence_threshold : ℚ
  voice_timeout : ℚ
  deriving Repr, DecidableEq

/-- The level computation of `_continuous_loop` (recorder.py lines
166-168): multiply the samples by the gain, take the mean absolute
amplitude, divide by the full-scale magnitude 32768. -/
def frameLevel (cfg : RecCfg) (data : Frame) : ℚ :=
  ((data.map (fun s => |(s : ℚ) * cfg.gain|)).sum / (data.length : ℚ)) / 32768

/-- The count `frames_for_timeout = int(voice_timeout * sample_rate / chunk_size)`
(recorder.py line 157); `int()` truncates toward zero, which for the
nonnegative configured values is the floor. -/
def framesForTimeout (cfg : RecCfg) : ℕ :=
  (⌊cfg.voice_timeout * (cfg.sample_rate : ℚ) / (cfg.chunk_size : ℚ)⌋).toNat

/-- The loop's mutable VAD state: `_voice_active`, `_frames`, and the
local `silence_frames` counter. -/
structure VadState where
  voiceActive : Bool
  frames : List Frame
  silenceFrames : ℕ
  deriving Repr, DecidableEq

/-- State at loop entry: inactive, empty buffer, zero counter. -/
def vadInit : VadState := ⟨false, [], 0⟩

/-- Python's `xs[:-k]` slice: for `k = 0` the result is empty (`xs[:0]`),
otherwise the last `k` elements are dropped. -/
def pySliceDropLast {α : Type} (xs : List α) (k : ℕ) : List α :=
  if k = 0 then [] else xs.take (xs.length - k)

/-- One iteration of `_continuous_loop` (recorder.py lines 159-203) on a
successfully read frame.  Returns the next state and the segment emitted
to the segment callback, if any.  Voiced frames (level strictly above the
silence threshold) start or extend the buffer and zero the counter;
unvoiced frames while active are appended and counted; when the counter
reaches `frames_for_timeout` the buffer is emitted with the trailing
`frames_for_timeout` frames sliced off (when longer than that) and the
state resets. -/
def vadStep (cfg : RecCfg) (st : VadState) (data : Frame) :
    VadState × Option (List Frame) :=
  let level := frameLevel cfg data
  let is_voice := cfg.silence_threshold < level
  if is_voice then
    (⟨true, (if st.voiceActive then st.frames else []) ++ [data], 0⟩, none)
  else if st.voiceActive then
    let frames' := st.frames ++ [data]
    let silence' := st.silenceFrames + 1
    if framesForTimeout cfg ≤ silence' then
      let trimmed :=
        if framesForTimeout cfg < frames'.length then
          pySliceDropLast frames' (framesForTimeout cfg)
        else frames'
      (⟨false, [], 0⟩, if trimmed.isEmpty then none else some trimmed)
    else (⟨true, frames', silence'⟩, none)
  else (st, none)

/-- Run the loop over a list of frames, collecting every emitted segment
in order. -/
def runVad (cfg : RecCfg) (st : VadState) : List Frame → VadState × List (List Frame)
  | [] => (st, [])
  | f :: rest =>
    let p := vadStep cfg st f
    let q := runVad cfg p.1 rest
    (q.1, p.2.toList ++ q.2)

/-! ## Speaker registry (docker/diarization/app.py) -/

/-- One value of the `speaker_embeddings` dict: name, embedding vector,
`is_user` flag. -/
structure SpeakerInfo where
  name : String
  embedding : List ℝ
  is_user : Bool

/-- The `speaker_embeddings` dict, embedded as an insertion-ordered
association list (Python dicts preserve insertion order; assignment to an
existing key updates it in place). -/
abbrev Registry : Type := List (String × SpeakerInfo)

/-- Python dict assignment `d[k] = v`: replace the value at `k` in place
if present, otherwise append the new binding. -/
def dictSet (regs : Registry) (k : String) (v : SpeakerInfo) : Registry :=
  if regs.any (fun p => p.1 == k) then
    regs.map (fun p => if p.1 = k then (k, v) else p)
  else regs ++ [(k, v)]

/-- Python dict read `d[k]` (as an `Option`): the binding of the first
(and only) entry with key `k`. -/
def dictGet (regs : Registry) (k : String) : Option SpeakerInfo :=
  match regs with
  | [] => none
  | p :: rest => if p.1 = k then some p.2 else dictGet rest k

/-- The id allocation of `enroll_speaker` (app.py lines 254-260):
`speaker_id = f"speaker_{len(speaker_embeddings)}"`, overridden to
`"speaker_0"` when enrolling the primary user. -/
def enrollId (regs : Registry) (is_user : Bool) : String :=
  if is_user then "speaker_0" else "speaker_" ++ toString regs.length

/-- The endpoint `enroll_speaker` (app.py lines 225-278) after a successful embedding
extraction: allocate the id and store the profile.  Returns the updated
registry and the allocated id. -/
def enroll (regs : Registry) (name : String) (embedding : List ℝ)
    (is_user : Bool) : Registry × String :=
  (dictSet regs (enrollId regs is_user) ⟨name, embedding, is_user⟩,
    enrollId regs is_user)

/-- The endpoint `delete_speaker` (app.py lines 294-308): 404 if the id is absent,
otherwise remove the entry (and its vector file). -/
def delete_speaker (regs : Registry) (id : String) : Except APIError Registry :=
  if regs.any (fun p => p.1 == id) then
    .ok (regs.filter (fun p => p.1 != id))
  else .error ⟨"Speaker not found"⟩

/-! ## Cosine similarity and identification (docker/diarization/app.py) -/

/-- Numpy dot (`np.dot`) on equal-length 1-d vectors: the sum of pointwise products. -/
def dotList (a b : List ℝ) : ℝ := (List.zipWith (· * ·) a b).sum

/-- Numpy norm (`np.linalg.norm`): the Euclidean norm, the square root of the dot
product of a vector with itself. -/
noncomputable def norm2 (a : List ℝ) : ℝ := Real.sqrt (dotList a a)

/-- The cosine similarity of `identify_speaker` (app.py lines 197-199):
`np.dot(a, b) / (np.linalg.norm(a) * np.linalg.norm(b))`. -/
noncomputable def cosineSim (a b : List ℝ) : ℝ := dotList a b / (norm2 a * norm2 b)

/-- The best-match scan of `identify_speaker` (app.py lines 190-203):
starting from `best_match = None, best_score = -1`, score every stored
profile against the query embedding and keep the first strict
improvement. -/
noncomputable def bestLoop (q : List ℝ) (regs : Registry)
    (init : Option (String × SpeakerInfo) × ℝ) :
    Option (String × SpeakerInfo) × ℝ :=
  regs.foldl (fun acc p =>
    let score := cosineSim q p.2.embedding
    if acc.2 < score then (some p, score) else acc) init

/-- The JSON body returned by `/identify`: `speaker_id` is a profile id,
or `none` standing for the integer sentinel `-1` ("Unknown"). -/
structure IdentifyResponse where
  speaker_id : Option String
  speaker_name : String
  confidence : ℝ

/-- The endpoint `identify_speaker` (app.py lines 158-222).  An empty registry answers
Unknown/0.0 before the uploaded audio is read or embedded, so `embedR`
(the outcome of reading the file and extracting the query embedding) is
consulted only on the non-empty branch.  Otherwise the best cosine match
is returned when its score strictly exceeds the 0.7 threshold, else
Unknown carrying the best score (0.0 when no score beat the initial
-1). -/
noncomputable def identify_speaker (regs : Registry)
    (embedR : Except APIError (List ℝ)) : Except APIError IdentifyResponse :=
  if regs.isEmpty then .ok ⟨none, "Unknown", 0⟩
  else do
    let q ← embedR
    let best := bestLoop q regs (none, -1)
    match best.1 with
    | some p =>
      if (7 / 10 : ℝ) < best.2 then .ok ⟨some p.1, p.2.name, best.2⟩
      else .ok ⟨none, "Unknown", best.2⟩
    | none => .ok ⟨none, "Unknown", 0⟩

/-- The score `identify_speaker` computes for one stored profile against
the query embedding `q`. -/
noncomputable def scoreOf (q : List ℝ) (p : String × SpeakerInfo) : ℝ :=
  cosineSim q p.2.embedding

/-- A one-profile registry used as a concrete identification input. -/
def exIdReg : Registry := [("speaker_0", ⟨"Alice", [1], true⟩)]

/-- Example run of the registry: a non-primary enrollment into an empty
registry, followed by a second non-primary enrollment. -/
def exR1 : Registry := (enroll [] "Alice" [1] false).1

/-- Second non-primary enrollment on top of `exR1`. -/
def exR2 : Registry := (enroll exR1 "Bob" [2] false).1

/-- The registry after deleting `"speaker_0"` from `exR2`: only Bob's
profile, still under the id `"speaker_1"`. -/
def exR3 : Registry := [("speaker_1", ⟨"Bob", [2], false⟩)]

/-! ## Theorems -/

/-- Binding a failure in the `Except` monad propagates the failure. -/
theorem error_bind {ε α β : Type} (e : ε) (f : α → Except ε β) :
    (Except.error e >>= f) = Except.error e := rfl

/-- Binding a success in the `Except` monad applies the continuation. -/
theorem ok_bind {ε α β : Type} (a : α) (f : α → Except ε β) :
    (Except.ok a >>= f) = f a := rfl

/-- C10: when the transcription response has an empty `segments` list but a
non-empty top-level `text`, `transcribe` returns exactly one segment whose
text is the stripped top-level text, spanning from 0.0 to the reported
duration (0.0 when absent); when both are empty it returns an empty
segment list rather than failing (the parse is total). -/
theorem C10_transcribe_toplevel_text :
    (∀ (r : WhisperJson) (lang : Option String) (t : String),
      r.segments = [] → r.text = some t → t ≠ "" →
      (parseTranscription r lang).segments =
        [⟨t.trim, 0, r.duration.getD 0, none⟩])
    ∧ (∀ (r : WhisperJson) (lang : Option String),
      r.segments = [] → (r.text = none ∨ r.text = some "") →
      (parseTranscription r lang).segments = []) := by
  constructor
  · intro r lang t hseg htext hne
    simp [parseTranscription, htext, hseg, hne]
  · intro r lang hseg htext
    rcases htext with h | h <;> simp [parseTranscription, h, hseg]

/-- Witness for C10 at a concrete response body. -/
theorem C10_transcribe_toplevel_text_witness :
    (parseTranscription ⟨[], some " hi ", some 3, none⟩ none).segments =
      [⟨" hi ".trim, 0, 3, none⟩] :=
  C10_transcribe_toplevel_text.1 ⟨[], some " hi ", some 3, none⟩ none " hi "
    rfl rfl (by decide)

/-- C5: the resolved speaker of a transcription span is the label of the
first diarization span whose closed interval contains the span's temporal
midpoint, and the default speaker 0 when none contains it; in particular
for transcription spans (0,2) and (3,5) against diarization spans
(0,2.5,"A") and (2.5,6,"B"), the midpoints resolve to "A" and "B". -/
theorem C5_midpoint_speaker_assignment :
    (∀ (α : Type) (d : α) (diar : List (DiarSpan α)) (mid : ℚ),
      (∀ ds ∈ diar, ¬(ds.dstart ≤ mid ∧ mid ≤ ds.dend)) →
      resolveSpeaker d mid diar = d)
    ∧ (∀ (α : Type) (d : α) (pre post : List (DiarSpan α)) (ds : DiarSpan α)
        (mid : ℚ),
      (∀ x ∈ pre, ¬(x.dstart ≤ mid ∧ mid ≤ x.dend)) →
      ds.dstart ≤ mid → mid ≤ ds.dend →
      resolveSpeaker d mid (pre ++ ds :: post) = ds.speaker.getD d)
    ∧ (∀ (cfg : PipeConfig) (translate : String → String → String →
        Except APIError String) (detected : String)
        (diar : List (DiarSpan Int)) (seg : TranscriptionSegment)
        (r : MergedResult),
      mergeSegment cfg translate detected diar seg = .ok r →
      r.speaker_id = resolveSpeaker 0 ((seg.tstart + seg.tend) / 2) diar)
    ∧ (resolveSpeaker "0" ((0 + 2) / 2)
        [⟨0, 5/2, some "A"⟩, ⟨5/2, 6, some "B"⟩] = "A"
      ∧ resolveSpeaker "0" ((3 + 5) / 2)
        [⟨0, 5/2, some "A"⟩, ⟨5/2, 6, some "B"⟩] = "B") := by
  refine ⟨?_, ?_, ?_, by norm_num [resolveSpeaker], by norm_num [resolveSpeaker]⟩
  · intro α d diar mid h
    induction diar with
    | nil => rfl
    | cons ds rest ih =>
      have hds := h ds (by simp)
      rw [resolveSpeaker, if_neg hds]
      exact ih fun x hx => h x (by simp [hx])
  · intro α d pre post ds mid hpre h1 h2
    induction pre with
    | nil => simp [resolveSpeaker, h1, h2]
    | cons x rest ih =>
      have hx := hpre x (by simp)
      rw [List.cons_append, resolveSpeaker, if_neg hx]
      exact ih fun y hy => hpre y (by simp [hy])
  · intro cfg translate detected diar seg r h
    unfold mergeSegment at h
    cases htc : translateCall translate cfg detected seg.text with
    | error e =>
      rw [htc, error_bind] at h
      cases h
    | ok s =>
      rw [htc, ok_bind] at h
      cases h
      rfl

/-- Witness for C5: a midpoint outside the only diarization span resolves
to the default speaker. -/
theorem C5_midpoint_speaker_assignment_witness :
    resolveSpeaker (0 : Int) 7 [⟨0, 1, some 3⟩] = 0 :=
  C5_midpoint_speaker_assignment.1 Int 0 [⟨0, 1, some 3⟩] 7 (by norm_num)

/-- The busy flag tracks the worker count exactly on reachable states. -/
theorem uiReachable_running (s : UI) (h : UIReachable s) :
    s.running = if s.processing then 1 else 0 := by
  induction h with
  | init => rfl
  | seg h ih =>
    rename_i s'
    by_cases hp : s'.processing = true
    · simpa [uiStep, hp] using ih
    · have h0 : s'.running = 0 := by simpa [hp] using ih
      simp [uiStep, hp, h0]
  | done h hr ih =>
    rename_i s'
    have h1 : s'.running = 1 := by
      by_cases hp : s'.processing = true
      · simpa [hp] using ih
      · have h0 : s'.running = 0 := by simpa [hp] using ih
        omega
    simp [uiStep, h1]

/-- C2: a segment arriving while the busy flag is set is dropped outright
(the state, including the processed count, is unchanged and nothing is
queued); in the concrete two-segment race the processed count stays at 1;
and on every reachable state at most one pipeline worker is running. -/
theorem C2_single_flight :
    (∀ s : UI, s.processing = true → uiStep s .segmentReady = s)
    ∧ ((uiStep uiInit .segmentReady).processed = 1
      ∧ uiStep (uiStep uiInit .segmentReady) .segmentReady =
          uiStep uiInit .segmentReady)
    ∧ (∀ s : UI, UIReachable s → s.running ≤ 1) := by
  refine ⟨?_, ⟨by decide, by decide⟩, ?_⟩
  · intro s h
    simp [uiStep, h]
  · intro s h
    rw [uiReachable_running s h]
    split <;> omega

/-- Witness for C2 at a concrete busy state and at the initial state. -/
theorem C2_single_flight_witness :
    (⟨true, 1, 1⟩ : UI).processing = true
    ∧ uiStep ⟨true, 1, 1⟩ .segmentReady = ⟨true, 1, 1⟩
    ∧ uiInit.running ≤ 1 :=
  ⟨rfl, C2_single_flight.1 ⟨true, 1, 1⟩ rfl,
    C2_single_flight.2.2 uiInit UIReachable.init⟩

/-- An unvoiced frame leaves the idle VAD state unchanged and emits
nothing. -/
theorem vadStep_idle_silent (cfg : RecCfg) (f : Frame)
    (h : ¬ cfg.silence_threshold < frameLevel cfg f) :
    vadStep cfg vadInit f = (vadInit, none) := by
  simp [vadStep, vadInit, h]

/-- A fully unvoiced stream keeps the VAD loop in its initial state and
emits nothing. -/
theorem runVad_silent (cfg : RecCfg) (frames : List Frame)
    (h : ∀ f ∈ frames, ¬ cfg.silence_threshold < frameLevel cfg f) :
    runVad cfg vadInit frames = (vadInit, []) := by
  induction frames with
  | nil => rfl
  | cons f rest ih =>
    have h1 := vadStep_idle_silent cfg f (h f (by simp))
    have h2 := ih fun x hx => h x (by simp [hx])
    simp [runVad, h1, h2]

/-- C8: for a frame stream whose every frame's computed level is below the
silence threshold, the segmenter never leaves the idle state (every prefix
of the run ends in the initial state) and emits zero segments. -/
theorem C8_silent_stream_no_segments (cfg : RecCfg) (frames : List Frame)
    (h : ∀ f ∈ frames, frameLevel cfg f < cfg.silence_threshold) :
    (∀ p, p <+: frames → (runVad cfg vadInit p).1 = vadInit)
    ∧ (runVad cfg vadInit frames).2 = [] := by
  have hsil : ∀ p, p <+: frames →
      ∀ f ∈ p, ¬ cfg.silence_threshold < frameLevel cfg f := by
    intro p hp f hf
    exact not_lt_of_lt (h f (hp.subset hf))
  constructor
  · intro p hp
    rw [runVad_silent cfg p (hsil p hp)]
  · rw [runVad_silent cfg frames (hsil frames (List.prefix_refl frames))]

/-- Witness for C8 on a concrete quiet stream. -/
theorem C8_silent_stream_no_segments_witness :
    (∀ f ∈ [[(0 : Int)], [1]],
      frameLevel ⟨16000, 1024, 1, 3/100, 2⟩ f < (3 / 100 : ℚ))
    ∧ (runVad ⟨16000, 1024, 1, 3/100, 2⟩ vadInit [[(0 : Int)], [1]]).2 = [] := by
  have hlev : ∀ f ∈ [[(0 : Int)], [1]],
      frameLevel ⟨16000, 1024, 1, 3/100, 2⟩ f < (3 / 100 : ℚ) := by
    simp only [List.mem_cons, List.mem_singleton, List.not_mem_nil, or_false,
      forall_eq_or_imp, forall_eq]
    norm_num [frameLevel]
  exact ⟨hlev,
    (C8_silent_stream_no_segments ⟨16000, 1024, 1, 3/100, 2⟩
      [[(0 : Int)], [1]] hlev).2⟩

/-- If every element of a list maps to a success satisfying `P`, the
effectful map succeeds with a list of the same length, all satisfying
`P`. -/
theorem mapMExcept_ok_of_all {ε α β : Type} (f : α → Except ε β) (P : β → Prop)
    (l : List α) (h : ∀ x ∈ l, ∃ y, f x = .ok y ∧ P y) :
    ∃ ys, mapMExcept f l = .ok ys ∧ ys.length = l.length ∧ ∀ y ∈ ys, P y := by
  induction l with
  | nil => exact ⟨[], rfl, rfl, by simp⟩
  | cons a t ih =>
    obtain ⟨y, hy, hPy⟩ := h a (by simp)
    obtain ⟨ys, hys, hlen, hPys⟩ := ih fun x hx => h x (by simp [hx])
    refine ⟨y :: ys, ?_, by simp [hlen], ?_⟩
    · rw [mapMExcept, hy, ok_bind, hys, ok_bind]
    · intro z hz
      rcases List.mem_cons.mp hz with h' | h'
      · exact h' ▸ hPy
      · exact hPys z h'

/-- If some element of a list maps to a failure, the effectful map fails. -/
theorem mapMExcept_error_of_mem {ε α β : Type} (f : α → Except ε β)
    (l : List α) (x : α) (hx : x ∈ l) (e : ε) (hfx : f x = .error e) :
    ∃ e', mapMExcept f l = .error e' := by
  induction l with
  | nil => cases hx
  | cons a t ih =>
    cases hfa : f a with
    | error ea => exact ⟨ea, by rw [mapMExcept, hfa, error_bind]⟩
    | ok ya =>
      have hxt : x ∈ t := by
        rcases List.mem_cons.mp hx with h | h
        · rw [h, hfa] at hfx; cases hfx
        · exact h
      obtain ⟨e', he'⟩ := ih hxt
      exact ⟨e', by rw [mapMExcept, hfa, ok_bind, he', error_bind]⟩

/-- C6: a diarization-service failure during `process_audio` is replaced
by a single synthetic span `[0, transcription.duration]` labeled speaker
0; with the transcription in hand and translations succeeding, the call
still returns a result list (one entry per transcription span) and every
entry is attributed to speaker 0. -/
theorem C6_diarization_failure_fallback (cfg : PipeConfig)
    (tr : DiarizedTranscription) (e : APIError)
    (translate : String → String → String → Except APIError String)
    (htrans : ∀ t a b, ∃ s, translate t a b = .ok s) :
    ∃ results, process_audio cfg (.ok tr) (.error e) translate = .ok results
      ∧ results.length = tr.segments.length
      ∧ ∀ r ∈ results, r.speaker_id = 0 := by
  have hres : ∀ mid : ℚ,
      resolveSpeaker (0 : Int) mid [⟨0, tr.duration, some 0⟩] = 0 := by
    intro mid
    rw [resolveSpeaker]
    split
    · rfl
    · rfl
  have h : ∀ seg ∈ tr.segments, ∃ r,
      mergeSegment cfg translate tr.language [⟨0, tr.duration, some 0⟩] seg =
        .ok r ∧ r.speaker_id = 0 := by
    intro seg _
    obtain ⟨s, hs⟩ : ∃ s,
        translateCall translate cfg tr.language seg.text = .ok s := by
      unfold translateCall
      split
      · exact htrans _ _ _
      · exact htrans _ _ _
    refine ⟨⟨seg.text, s, seg.tstart, seg.tend,
      resolveSpeaker 0 ((seg.tstart + seg.tend) / 2) [⟨0, tr.duration, some 0⟩],
      tr.language⟩, ?_, hres _⟩
    unfold mergeSegment
    rw [hs, ok_bind]
  obtain ⟨ys, hys, hlen, hP⟩ :=
    mapMExcept_ok_of_all _ (fun r : MergedResult => r.speaker_id = 0)
      tr.segments h
  refine ⟨ys, ?_, hlen, hP⟩
  unfold process_audio
  rw [ok_bind]
  exact hys

/-- Witness for C6 with one transcription span and an always-succeeding
translator. -/
theorem C6_diarization_failure_fallback_witness :
    ∃ results, process_audio ⟨"en", "hu"⟩
        (.ok ⟨[⟨"hi", 0, 2, none⟩], "en", 2⟩) (.error ⟨"down"⟩)
        (fun t _ _ => .ok t) = .ok results
      ∧ results.length = 1
      ∧ ∀ r ∈ results, r.speaker_id = 0 :=
  C6_diarization_failure_fallback ⟨"en", "hu"⟩ ⟨[⟨"hi", 0, 2, none⟩], "en", 2⟩
    ⟨"down"⟩ (fun t _ _ => .ok t) (fun t _ _ => ⟨t, rfl⟩)

/-- C7: `process_audio` produces no partial output — a transcription
failure fails the whole segment with that error and no utterances, and a
failing translation call for any transcription span aborts the remaining
merge, so the caller receives an error and no utterance list. -/
theorem C7_no_partial_segment_output :
    (∀ (cfg : PipeConfig) (e : APIError)
      (diarizeR : Except APIError (List (DiarSpan Int)))
      (translate : String → String → String → Except APIError String),
      process_audio cfg (.error e) diarizeR translate = .error e)
    ∧ (∀ (cfg : PipeConfig) (tr : DiarizedTranscription)
      (diarizeR : Except APIError (List (DiarSpan Int)))
      (translate : String → String → String → Except APIError String)
      (seg : TranscriptionSegment) (err : APIError),
      seg ∈ tr.segments →
      translateCall translate cfg tr.language seg.text = .error err →
      ∃ e', process_audio cfg (.ok tr) diarizeR translate = .error e') := by
  constructor
  · intro cfg e diarizeR translate
    unfold process_audio
    rw [error_bind]
  · intro cfg tr diarizeR translate seg err hseg htc
    have key : ∀ diar : List (DiarSpan Int), ∃ e',
        mapMExcept (mergeSegment cfg translate tr.language diar) tr.segments =
          .error e' := by
      intro diar
      have hms : mergeSegment cfg translate tr.language diar seg = .error err := by
        unfold mergeSegment
        rw [htc, error_bind]
      exact mapMExcept_error_of_mem _ tr.segments seg hseg err hms
    cases diarizeR with
    | ok segs =>
      obtain ⟨e', he'⟩ := key segs
      exact ⟨e', by unfold process_audio; rw [ok_bind]; exact he'⟩
    | error e2 =>
      obtain ⟨e', he'⟩ := key [⟨0, tr.duration, some 0⟩]
      exact ⟨e', by unfold process_audio; rw [ok_bind]; exact he'⟩

/-- Witness for C7: a translator that always fails aborts the whole
segment. -/
theorem C7_no_partial_segment_output_witness :
    (⟨"hi", 0, 1, none⟩ : TranscriptionSegment) ∈
      (⟨[⟨"hi", 0, 1, none⟩], "en", 1⟩ : DiarizedTranscription).segments
    ∧ ∃ e', process_audio ⟨"en", "hu"⟩ (.ok ⟨[⟨"hi", 0, 1, none⟩], "en", 1⟩)
        (.ok []) (fun _ _ _ => .error ⟨"boom"⟩) = .error e' :=
  ⟨by simp,
    C7_no_partial_segment_output.2 ⟨"en", "hu"⟩ ⟨[⟨"hi", 0, 1, none⟩], "en", 1⟩
      (.ok []) (fun _ _ _ => .error ⟨"boom"⟩) ⟨"hi", 0, 1, none⟩ ⟨"boom"⟩
      (by simp) rfl⟩

/-- Looking up the updated key after an in-place dict update when the key
was present. -/
theorem dictGet_map_set (regs : Registry) (k : String) (v : SpeakerInfo) :
    dictGet (regs.map (fun p => if p.1 = k then (k, v) else p)) k =
      if regs.any (fun p => p.1 == k) then some v else none := by
  induction regs with
  | nil => rfl
  | cons a t ih =>
    rcases a with ⟨ak, av⟩
    by_cases h : ak = k
    · subst h
      simp [dictGet]
    · have hb : (ak == k) = false := beq_eq_false_iff_ne.mpr h
      simp only [List.map_cons, List.any_cons, dictGet, if_neg h, hb,
        Bool.false_or]
      exact ih

/-- An in-place dict update leaves every other key's binding unchanged. -/
theorem dictGet_map_set_ne (regs : Registry) (k : String) (v : SpeakerInfo)
    (k' : String) (h : k' ≠ k) :
    dictGet (regs.map (fun p => if p.1 = k then (k, v) else p)) k' =
      dictGet regs k' := by
  induction regs with
  | nil => rfl
  | cons a t ih =>
    rcases a with ⟨ak, av⟩
    by_cases hak : ak = k
    · subst hak
      simp [dictGet, Ne.symm h, ih]
    · simp [dictGet, hak, ih]

/-- A key missing from an association list (per `any`) has no binding. -/
theorem dictGet_none_of_any_false (regs : Registry) (k : String)
    (h : regs.any (fun p => p.1 == k) = false) : dictGet regs k = none := by
  induction regs with
  | nil => rfl
  | cons a t ih =>
    simp only [List.any_cons, Bool.or_eq_false_iff] at h
    have hne : ¬ a.1 = k := by simpa using h.1
    simp [dictGet, hne, ih h.2]

/-- Appending a fresh binding makes it found when the key was absent. -/
theorem dictGet_append_fresh (regs : Registry) (k : String) (v : SpeakerInfo)
    (h : dictGet regs k = none) : dictGet (regs ++ [(k, v)]) k = some v := by
  induction regs with
  | nil => simp [dictGet]
  | cons a t ih =>
    by_cases hak : a.1 = k
    · simp [dictGet, hak] at h
    · rw [dictGet, if_neg hak] at h
      simpa [dictGet, hak] using ih h

/-- Appending a binding for a different key changes no other lookup. -/
theorem dictGet_append_other (regs : Registry) (k : String) (v : SpeakerInfo)
    (k' : String) (h : k' ≠ k) :
    dictGet (regs ++ [(k, v)]) k' = dictGet regs k' := by
  induction regs with
  | nil => simp [dictGet, Ne.symm h]
  | cons a t ih =>
    by_cases hak : a.1 = k'
    · simp [dictGet, hak]
    · simp [dictGet, hak, ih]

/-- C1 counterexample: enroll Alice (non-primary, allocated
`"speaker_0"`), enroll Bob (allocated `"speaker_1"`), delete
`"speaker_0"`; the next non-primary enrollment is allocated
`"speaker_1"`, an id already held by Bob's profile, and enrolling Carol
under it overwrites Bob. -/
theorem C1_counterexample :
    delete_speaker exR2 "speaker_0" = .ok exR3
    ∧ enrollId exR3 false = "speaker_1"
    ∧ dictGet exR3 "speaker_1" = some ⟨"Bob", [2], false⟩
    ∧ dictGet (enroll exR3 "Carol" [3] false).1 "speaker_1" =
        some ⟨"Carol", [3], false⟩ :=
  ⟨rfl, rfl, rfl, rfl⟩

/-- C1 amended: `enroll` allocates `"speaker_0"` when `is_primary_user`
is true (overwriting any existing primary-user profile) and otherwise
`"speaker_" ++ count`, the count of currently stored profiles — which
after deletions may coincide with an id already held.  The enrolled
profile is stored under the allocated id (replacing any previous holder)
and every other binding is unchanged. -/
theorem C1_enroll_allocation (regs : Registry) (name : String)
    (emb : List ℝ) (is_user : Bool) :
    (enroll regs name emb is_user).2 =
      (if is_user then "speaker_0" else "speaker_" ++ toString regs.length)
    ∧ dictGet (enroll regs name emb is_user).1 (enrollId regs is_user) =
        some ⟨name, emb, is_user⟩
    ∧ ∀ k, k ≠ enrollId regs is_user →
        dictGet (enroll regs name emb is_user).1 k = dictGet regs k := by
  refine ⟨rfl, ?_, ?_⟩
  · show dictGet (dictSet regs (enrollId regs is_user) ⟨name, emb, is_user⟩)
      (enrollId regs is_user) = some ⟨name, emb, is_user⟩
    unfold dictSet
    by_cases hany : regs.any (fun p => p.1 == enrollId regs is_user) = true
    · rw [if_pos hany, dictGet_map_set, if_pos hany]
    · rw [if_neg hany]
      have hf : regs.any (fun p => p.1 == enrollId regs is_user) = false := by
        cases hh : regs.any (fun p => p.1 == enrollId regs is_user)
        · rfl
        · exact absurd hh hany
      exact dictGet_append_fresh regs _ _
        (dictGet_none_of_any_false regs _ hf)
  · intro k hk
    show dictGet (dictSet regs (enrollId regs is_user) ⟨name, emb, is_user⟩) k =
      dictGet regs k
    unfold dictSet
    split
    · exact dictGet_map_set_ne regs _ _ k hk
    · exact dictGet_append_other regs _ _ k hk

/-- Witness for C1's amended statement at a concrete enrollment. -/
theorem C1_enroll_allocation_witness :
    (enroll [] "Alice" [] true).2 = "speaker_0"
    ∧ dictGet (enroll [] "Alice" [] true).1 "speaker_1" =
        dictGet ([] : Registry) "speaker_1" :=
  ⟨(C1_enroll_allocation [] "Alice" [] true).1,
    (C1_enroll_allocation [] "Alice" [] true).2.2 "speaker_1" (by decide)⟩

/-- Running the VAD loop over a concatenation composes state and
concatenates emissions. -/
theorem runVad_append (cfg : RecCfg) (st : VadState) (l1 l2 : List Frame) :
    runVad cfg st (l1 ++ l2) =
      ((runVad cfg (runVad cfg st l1).1 l2).1,
        (runVad cfg st l1).2 ++ (runVad cfg (runVad cfg st l1).1 l2).2) := by
  induction l1 generalizing st with
  | nil => simp [runVad]
  | cons f t ih => simp [runVad, ih]

/-- A voiced frame (re)starts or extends the buffer and zeroes the
silence counter. -/
theorem vadStep_voiced (cfg : RecCfg) (st : VadState) (f : Frame)
    (h : cfg.silence_threshold < frameLevel cfg f) :
    vadStep cfg st f =
      (⟨true, (if st.voiceActive then st.frames else []) ++ [f], 0⟩, none) := by
  simp [vadStep, h]

/-- Voiced frames fed to an active state with a clear counter keep
appending, emitting nothing. -/
theorem runVad_active_voiced (cfg : RecCfg) (vs : List Frame)
    (hv : ∀ f ∈ vs, cfg.silence_threshold < frameLevel cfg f) :
    ∀ buf : List Frame,
      runVad cfg ⟨true, buf, 0⟩ vs = (⟨true, buf ++ vs, 0⟩, []) := by
  induction vs with
  | nil => intro buf; simp [runVad]
  | cons v t ih =>
    intro buf
    have hstep : vadStep cfg ⟨true, buf, 0⟩ v = (⟨true, buf ++ [v], 0⟩, none) := by
      rw [vadStep_voiced cfg ⟨true, buf, 0⟩ v (hv v (by simp))]
      simp
    have ht := ih (fun f hf => hv f (by simp [hf])) (buf ++ [v])
    simp only [runVad, hstep, ht]
    simp

/-- A nonempty, fully voiced stream from the idle state ends active with
exactly those frames buffered and nothing emitted. -/
theorem runVad_voiced_from_init (cfg : RecCfg) (vs : List Frame)
    (hne : vs ≠ [])
    (hv : ∀ f ∈ vs, cfg.silence_threshold < frameLevel cfg f) :
    runVad cfg vadInit vs = (⟨true, vs, 0⟩, []) := by
  cases vs with
  | nil => exact absurd rfl hne
  | cons v t =>
    have hstep : vadStep cfg vadInit v = (⟨true, [v], 0⟩, none) := by
      rw [vadStep_voiced cfg vadInit v (hv v (by simp))]
      simp [vadInit]
    have ht := runVad_active_voiced cfg t (fun f hf => hv f (by simp [hf])) [v]
    simp only [runVad, hstep, ht]
    simp

/-- Unvoiced frames fed to an active state are appended and counted while
the counter stays below the timeout. -/
theorem runVad_active_silent_under (cfg : RecCfg) (ss : List Frame)
    (hs : ∀ f ∈ ss, ¬ cfg.silence_threshold < frameLevel cfg f) :
    ∀ (buf : List Frame) (c : ℕ), c + ss.length < framesForTimeout cfg →
      runVad cfg ⟨true, buf, c⟩ ss = (⟨true, buf ++ ss, c + ss.length⟩, []) := by
  induction ss with
  | nil => intro buf c _; simp [runVad]
  | cons f t ih =>
    intro buf c hc
    have hlt : ¬ framesForTimeout cfg ≤ c + 1 := by
      simp only [List.length_cons] at hc
      omega
    have hstep : vadStep cfg ⟨true, buf, c⟩ f =
        (⟨true, buf ++ [f], c + 1⟩, none) := by
      simp [vadStep, hs f (by simp), hlt]
    have ht := ih (fun x hx => hs x (by simp [hx])) (buf ++ [f]) (c + 1)
      (by simp only [List.length_cons] at hc; omega)
    simp only [runVad, hstep, ht]
    simp only [List.length_cons, List.append_assoc, List.singleton_append,
      Option.toList_none, List.nil_append]
    have harith : c + 1 + t.length = c + (t.length + 1) := by omega
    rw [harith]

/-- The unvoiced frame on which the counter reaches the timeout triggers
the emission: the buffer plus this frame, with the last
`frames_for_timeout` frames sliced off, is emitted and the state resets
to idle. -/
theorem vadStep_timeout (cfg : RecCfg) (st : VadState) (f : Frame)
    (ha : st.voiceActive = true)
    (hs : ¬ cfg.silence_threshold < frameLevel cfg f)
    (hc : st.silenceFrames + 1 = framesForTimeout cfg)
    (hft : 1 ≤ framesForTimeout cfg)
    (hlen : framesForTimeout cfg ≤ st.frames.length) :
    vadStep cfg st f =
      (vadInit, some ((st.frames ++ [f]).take
        (st.frames.length + 1 - framesForTimeout cfg))) := by
  have hreach : framesForTimeout cfg ≤ st.silenceFrames + 1 := hc.ge
  have hlong : framesForTimeout cfg < (st.frames ++ [f]).length := by
    simp only [List.length_append, List.length_singleton]
    omega
  have hslice : pySliceDropLast (st.frames ++ [f]) (framesForTimeout cfg) =
      (st.frames ++ [f]).take (st.frames.length + 1 - framesForTimeout cfg) := by
    rw [pySliceDropLast, if_neg (by omega)]
    simp [List.length_append]
  have htake_ne :
      (st.frames ++ [f]).take (st.frames.length + 1 - framesForTimeout cfg)
        ≠ [] := by
    intro hnil
    have := congrArg List.length hnil
    simp only [List.length_take, List.length_append, List.length_singleton,
      List.length_nil] at this
    omega
  have hisEmpty :
      ((st.frames ++ [f]).take
        (st.frames.length + 1 - framesForTimeout cfg)).isEmpty = false := by
    cases hE : ((st.frames ++ [f]).take
        (st.frames.length + 1 - framesForTimeout cfg)).isEmpty
    · rfl
    · exact absurd (List.isEmpty_iff.mp hE) htake_ne
  simp only [vadStep, if_neg hs, ha, if_true, if_pos hreach, if_pos hlong,
    hslice, hisEmpty, Bool.false_eq_true, if_false, vadInit]

/-- C3: in the trailing state, the unvoiced frame on which the
trailing-silence counter reaches `voice_timeout × sample_rate /
frame_size` makes the segmenter emit the buffer with the last `counter`
frames trimmed and reset to idle with an empty buffer; consequently a
nonempty voiced run followed by at least `frames_for_timeout` unvoiced
frames yields exactly one emitted segment, namely the voiced frames, so
its frame count is less than that of the run plus the timeout window. -/
theorem C3_trailing_timeout_emits_trimmed :
    (∀ (cfg : RecCfg) (st : VadState) (f : Frame),
      st.voiceActive = true →
      ¬ cfg.silence_threshold < frameLevel cfg f →
      st.silenceFrames + 1 = framesForTimeout cfg →
      1 ≤ framesForTimeout cfg →
      framesForTimeout cfg ≤ st.frames.length →
      vadStep cfg st f =
        (vadInit, some ((st.frames ++ [f]).take
          (st.frames.length + 1 - framesForTimeout cfg))))
    ∧ (∀ (cfg : RecCfg) (vs ss : List Frame),
      vs ≠ [] →
      (∀ f ∈ vs, cfg.silence_threshold < frameLevel cfg f) →
      (∀ f ∈ ss, ¬ cfg.silence_threshold < frameLevel cfg f) →
      1 ≤ framesForTimeout cfg →
      framesForTimeout cfg ≤ ss.length →
      (runVad cfg vadInit (vs ++ ss)).2 = [vs]
      ∧ vs.length < vs.length + framesForTimeout cfg) := by
  constructor
  · exact vadStep_timeout
  · intro cfg vs ss hne hv hs hft hlen
    refine ⟨?_, by omega⟩
    -- split the silence into the pre-timeout run, the triggering frame,
    -- and the tail after emission
    obtain ⟨trig, s2, hdrop⟩ : ∃ trig s2,
        ss.drop (framesForTimeout cfg - 1) = trig :: s2 := by
      cases hd : ss.drop (framesForTimeout cfg - 1) with
      | nil =>
        have := congrArg List.length hd
        simp only [List.length_drop, List.length_nil] at this
        omega
      | cons a l => exact ⟨a, l, rfl⟩
    have hss : ss = ss.take (framesForTimeout cfg - 1) ++ (trig :: s2) := by
      rw [← hdrop, List.take_append_drop]
    have hlen_s1 : (ss.take (framesForTimeout cfg - 1)).length =
        framesForTimeout cfg - 1 := by
      rw [List.length_take]
      omega
    have hs1 : ∀ f ∈ ss.take (framesForTimeout cfg - 1),
        ¬ cfg.silence_threshold < frameLevel cfg f :=
      fun f hf => hs f (List.take_subset _ _ hf)
    have htrig : ¬ cfg.silence_threshold < frameLevel cfg trig :=
      hs trig (by rw [hss]; exact List.mem_append_right _ (by simp))
    have hs2 : ∀ f ∈ s2, ¬ cfg.silence_threshold < frameLevel cfg f :=
      fun f hf => hs f (by rw [hss]; exact List.mem_append_right _ (by simp [hf]))
    -- phase 1: the voiced run buffers `vs`
    have h1 := runVad_voiced_from_init cfg vs hne hv
    -- phase 2: the first ft-1 silent frames count up without emitting
    have h2 := runVad_active_silent_under cfg
      (ss.take (framesForTimeout cfg - 1)) hs1 vs 0
      (by rw [hlen_s1]; omega)
    rw [hlen_s1] at h2
    -- phase 3: the triggering frame emits the trimmed buffer
    have h3 : vadStep cfg
        ⟨true, vs ++ ss.take (framesForTimeout cfg - 1),
          0 + (framesForTimeout cfg - 1)⟩ trig =
        (vadInit, some vs) := by
      have hstep := vadStep_timeout cfg
        ⟨true, vs ++ ss.take (framesForTimeout cfg - 1),
          0 + (framesForTimeout cfg - 1)⟩ trig rfl htrig
        (by simp only; omega) hft
        (by simp only [List.length_append, hlen_s1]
            have : 1 ≤ vs.length := List.length_pos.mpr hne
            omega)
      rw [hstep]
      have harith : (vs ++ ss.take (framesForTimeout cfg - 1)).length + 1 -
          framesForTimeout cfg = vs.length := by
        simp only [List.length_append, hlen_s1]
        have : 1 ≤ vs.length := List.length_pos.mpr hne
        omega
      rw [harith]
      have htake : ((vs ++ ss.take (framesForTimeout cfg - 1)) ++ [trig]).take
          vs.length = vs := by
        rw [List.append_assoc]
        exact List.take_left vs _
      rw [htake]
    -- phase 4: silence after the reset emits nothing
    have h4 := runVad_silent cfg s2 hs2
    -- assemble
    rw [hss, ← List.append_assoc]
    rw [runVad_append cfg vadInit (vs ++ ss.take (framesForTimeout cfg - 1))
      (trig :: s2)]
    rw [runVad_append cfg vadInit vs (ss.take (framesForTimeout cfg - 1))]
    rw [h1]
    simp only at h2 ⊢
    rw [h2]
    simp only [runVad, h3, h4]
    simp

/-- Witness for C3 with a one-frame voiced run, a one-frame timeout
window, and a single silent frame. -/
theorem C3_trailing_timeout_emits_trimmed_witness :
    framesForTimeout ⟨1, 1, 1, 0, 1⟩ = 1
    ∧ (runVad ⟨1, 1, 1, 0, 1⟩ vadInit ([[32768]] ++ [[0]])).2 = [[[32768]]] := by
  have hft : framesForTimeout ⟨1, 1, 1, 0, 1⟩ = 1 := by
    simp [framesForTimeout]
  refine ⟨hft, (C3_trailing_timeout_emits_trimmed.2 ⟨1, 1, 1, 0, 1⟩
    [[32768]] [[0]] (by simp) ?_ ?_ (by rw [hft]) (by rw [hft]; simp)).1⟩
  · intro f hf
    simp only [List.mem_singleton] at hf
    rw [hf]
    norm_num [frameLevel]
  · intro f hf
    simp only [List.mem_singleton] at hf
    rw [hf]
    norm_num [frameLevel]

/-- The dot product is symmetric. -/
theorem dotList_comm (a b : List ℝ) : dotList a b = dotList b a := by
  unfold dotList
  rw [List.zipWith_comm_of_comm _ mul_comm]

/-- The dot product of a vector with itself is its sum of squares. -/
theorem dotList_self (a : List ℝ) :
    dotList a a = (a.map fun x => x * x).sum := by
  induction a with
  | nil => rfl
  | cons x t ih =>
    simp only [dotList, List.zipWith_cons_cons, List.map_cons, List.sum_cons]
    rw [← ih]
    rfl

/-- The self dot product is nonnegative. -/
theorem dotList_self_nonneg (a : List ℝ) : 0 ≤ dotList a a := by
  rw [dotList_self]
  apply List.sum_nonneg
  intro x hx
  obtain ⟨y, _, rfl⟩ := List.mem_map.mp hx
  exact mul_self_nonneg y

/-- The self dot product of a vector with a nonzero entry is positive. -/
theorem dotList_self_pos (a : List ℝ) (h : ∃ x ∈ a, x ≠ 0) :
    0 < dotList a a := by
  obtain ⟨x, hx, hxne⟩ := h
  rw [dotList_self]
  have hnn : ∀ y ∈ a.map fun z => z * z, (0 : ℝ) ≤ y := by
    intro y hy
    obtain ⟨z, _, rfl⟩ := List.mem_map.mp hy
    exact mul_self_nonneg z
  have hle : x * x ≤ (a.map fun z => z * z).sum :=
    List.single_le_sum hnn _ (List.mem_map_of_mem _ hx)
  have hpos : 0 < x * x := mul_self_pos.mpr hxne
  linarith

/-- C9: cosine similarity `dot(a,b)/(‖a‖·‖b‖)` is symmetric for
equal-length vectors with nonzero norms, and equals 1.0 on any vector
with a nonzero entry paired with itself. -/
theorem C9_cosine_symmetric_and_self_one :
    (∀ a b : List ℝ, a.length = b.length → norm2 a ≠ 0 → norm2 b ≠ 0 →
      cosineSim a b = cosineSim b a)
    ∧ (∀ a : List ℝ, (∃ x ∈ a, x ≠ 0) → cosineSim a a = 1) := by
  constructor
  · intro a b _ _ _
    unfold cosineSim
    rw [dotList_comm, mul_comm]
  · intro a h
    have hpos := dotList_self_pos a h
    unfold cosineSim norm2
    rw [Real.mul_self_sqrt (le_of_lt hpos)]
    exact div_self (ne_of_gt hpos)

/-- Witness for C9 on concrete two- and one-dimensional vectors. -/
theorem C9_cosine_symmetric_and_self_one_witness :
    cosineSim [(1 : ℝ), 0] [0, 1] = cosineSim [0, 1] [1, 0]
    ∧ cosineSim [(1 : ℝ)] [1] = 1 := by
  have h10 : norm2 [(1 : ℝ), 0] ≠ 0 := by
    have hd : dotList [(1 : ℝ), 0] [1, 0] = 1 := by norm_num [dotList]
    rw [norm2, hd, Real.sqrt_one]
    norm_num
  have h01 : norm2 [(0 : ℝ), 1] ≠ 0 := by
    have hd : dotList [(0 : ℝ), 1] [0, 1] = 1 := by norm_num [dotList]
    rw [norm2, hd, Real.sqrt_one]
    norm_num
  exact ⟨C9_cosine_symmetric_and_self_one.1 [1, 0] [0, 1] rfl h10 h01,
    C9_cosine_symmetric_and_self_one.2 [1] ⟨1, by simp, by norm_num⟩⟩

/-- Unfolding one step of the best-match scan. -/
theorem bestLoop_cons (q : List ℝ) (a : String × SpeakerInfo) (t : Registry)
    (init : Option (String × SpeakerInfo) × ℝ) :
    bestLoop q (a :: t) init =
      bestLoop q t
        (if init.2 < scoreOf q a then (some a, scoreOf q a) else init) := rfl

/-- The best score is the running maximum of all profile scores. -/
theorem bestLoop_snd (q : List ℝ) :
    ∀ (regs : Registry) (init : Option (String × SpeakerInfo) × ℝ),
      (bestLoop q regs init).2 =
        List.foldl max init.2 (regs.map (scoreOf q)) := by
  intro regs
  induction regs with
  | nil => intro init; rfl
  | cons a t ih =>
    intro init
    rw [bestLoop_cons, ih]
    have hsnd : (if init.2 < scoreOf q a
        then ((some a : Option (String × SpeakerInfo)), scoreOf q a)
        else init).2 = max init.2 (scoreOf q a) := by
      split
      · next h => exact (max_eq_right (le_of_lt h)).symm
      · next h => exact (max_eq_left (not_lt.mp h)).symm
    rw [List.map_cons, List.foldl_cons, hsnd]

/-- The scan either never improves on its initial accumulator or ends on
some profile of the registry holding the final best score. -/
theorem bestLoop_cases (q : List ℝ) :
    ∀ (regs : Registry) (init : Option (String × SpeakerInfo) × ℝ),
      bestLoop q regs init = init ∨
      ∃ p ∈ regs, (bestLoop q regs init).1 = some p ∧
        (bestLoop q regs init).2 = scoreOf q p := by
  intro regs
  induction regs with
  | nil => intro init; left; rfl
  | cons a t ih =>
    intro init
    rw [bestLoop_cons]
    by_cases h : init.2 < scoreOf q a
    · rw [if_pos h]
      rcases ih (some a, scoreOf q a) with heq | ⟨p, hp, h1, h2⟩
      · right
        exact ⟨a, by simp, by rw [heq], by rw [heq]⟩
      · right
        exact ⟨p, by simp [hp], h1, h2⟩
    · rw [if_neg h]
      rcases ih init with heq | ⟨p, hp, h1, h2⟩
      · left; exact heq
      · right
        exact ⟨p, by simp [hp], h1, h2⟩

/-- The left fold of `max` dominates its seed and every element. -/
theorem le_foldl_max (l : List ℝ) :
    ∀ a : ℝ, a ≤ l.foldl max a ∧ ∀ x ∈ l, x ≤ l.foldl max a := by
  induction l with
  | nil => intro a; exact ⟨le_refl a, by simp⟩
  | cons y t ih =>
    intro a
    obtain ⟨h1, h2⟩ := ih (max a y)
    simp only [List.foldl_cons]
    refine ⟨le_trans (le_max_left a y) h1, ?_⟩
    intro x hx
    rcases List.mem_cons.mp hx with rfl | hx'
    · exact le_trans (le_max_right a x) h1
    · exact h2 x hx'

/-- The left fold of `max` is bounded by any common upper bound. -/
theorem foldl_max_le (l : List ℝ) :
    ∀ a M : ℝ, a ≤ M → (∀ x ∈ l, x ≤ M) → l.foldl max a ≤ M := by
  induction l with
  | nil => intro a M ha _; simpa using ha
  | cons y t ih =>
    intro a M ha hl
    simp only [List.foldl_cons]
    exact ih (max a y) M (max_le ha (hl y (by simp)))
      (fun x hx => hl x (by simp [hx]))

/-- Folding `max` over a list whose maximum is `M` yields `max a M`. -/
theorem foldl_max_eq (l : List ℝ) (a M : ℝ) (hM : M ∈ l)
    (hle : ∀ x ∈ l, x ≤ M) : l.foldl max a = max a M := by
  apply le_antisymm
  · exact foldl_max_le l a (max a M) (le_max_left a M)
      (fun x hx => le_trans (hle x hx) (le_max_right a M))
  · exact max_le (le_foldl_max l a).1 ((le_foldl_max l a).2 M hM)

/-- C4: `identify_speaker` on an empty registry answers Unknown/0.0 before
consulting the embedding (even a failed embedding extraction); on a
non-empty registry with best cosine score `M`, it returns a
maximum-scoring profile's id, name and score iff `M` strictly exceeds
0.7, a best score of at most 0.7 yields Unknown (with exactly that score
when `M = 0.7`). -/
theorem C4_identify_threshold :
    (∀ (regs : Registry) (embedR : Except APIError (List ℝ)),
      regs = [] → identify_speaker regs embedR = .ok ⟨none, "Unknown", 0⟩)
    ∧ (∀ (regs : Registry) (q : List ℝ) (M : ℝ),
      regs ≠ [] →
      M ∈ regs.map (scoreOf q) →
      (∀ s ∈ regs.map (scoreOf q), s ≤ M) →
      ((7 / 10 : ℝ) < M →
        ∃ p ∈ regs, scoreOf q p = M ∧
          identify_speaker regs (.ok q) = .ok ⟨some p.1, p.2.name, M⟩)
      ∧ (M ≤ 7 / 10 →
        ∃ c, identify_speaker regs (.ok q) = .ok ⟨none, "Unknown", c⟩)
      ∧ (M = 7 / 10 →
        identify_speaker regs (.ok q) = .ok ⟨none, "Unknown", M⟩)) := by
  constructor
  · intro regs embedR h
    subst h
    rfl
  · intro regs q M hne hM hle
    have hemp : regs.isEmpty = false := by
      cases regs with
      | nil => exact absurd rfl hne
      | cons a t => rfl
    have hid : identify_speaker regs (.ok q) =
        (match (bestLoop q regs (none, -1)).1 with
        | some p =>
          if (7 / 10 : ℝ) < (bestLoop q regs (none, -1)).2 then
            .ok ⟨some p.1, p.2.name, (bestLoop q regs (none, -1)).2⟩
          else .ok ⟨none, "Unknown", (bestLoop q regs (none, -1)).2⟩
        | none => .ok ⟨none, "Unknown", 0⟩) := by
      unfold identify_speaker
      rw [if_neg (by simp [hemp]), ok_bind]
    have hbs : (bestLoop q regs (none, -1)).2 = max (-1) M := by
      rw [bestLoop_snd]
      exact foldl_max_eq _ _ M hM hle
    refine ⟨?_, ?_, ?_⟩
    · intro h7
      have hmax : max (-1 : ℝ) M = M := max_eq_right (by linarith)
      rcases bestLoop_cases q regs (none, -1) with heq | ⟨p, hp, h1, h2⟩
      · exfalso
        have : (bestLoop q regs (none, -1)).2 = -1 := by rw [heq]
        rw [hbs, hmax] at this
        linarith
      · refine ⟨p, hp, ?_, ?_⟩
        · rw [← h2, hbs, hmax]
        · rw [hid, h1, hbs, hmax]
          simp [h7]
    · intro hM7
      have hbs_le : (bestLoop q regs (none, -1)).2 ≤ 7 / 10 := by
        rw [hbs]
        exact max_le (by norm_num) hM7
      rcases bestLoop_cases q regs (none, -1) with heq | ⟨p, hp, h1, h2⟩
      · refine ⟨0, ?_⟩
        have h1 : (bestLoop q regs (none, -1)).1 = none := by rw [heq]
        rw [hid, h1]
      · refine ⟨(bestLoop q regs (none, -1)).2, ?_⟩
        rw [hid, h1]
        simp [not_lt.mpr hbs_le]
    · intro hMeq
      subst hMeq
      have hmax : max (-1 : ℝ) (7 / 10) = 7 / 10 := max_eq_right (by norm_num)
      rcases bestLoop_cases q regs (none, -1) with heq | ⟨p, hp, h1, h2⟩
      · exfalso
        have hsnd : (bestLoop q regs (none, -1)).2 = -1 := by rw [heq]
        rw [hbs, hmax] at hsnd
        norm_num at hsnd
      · rw [hid, h1, hbs, hmax]
        simp

/-- The cosine similarity of the one-dimensional unit vector with itself is 1. -/
theorem cosineSim_one_one : cosineSim [(1 : ℝ)] [1] = 1 := by
  have hd : dotList [(1 : ℝ)] [1] = 1 := by norm_num [dotList]
  rw [cosineSim, norm2, hd, Real.sqrt_one]
  norm_num

/-- Witness for C4: an exact embedding match scores 1 > 0.7 and is
identified. -/
theorem C4_identify_threshold_witness :
    ∃ p ∈ exIdReg, scoreOf [(1 : ℝ)] p = 1 ∧
      identify_speaker exIdReg (.ok [1]) = .ok ⟨some p.1, p.2.name, 1⟩ := by
  have hmem : (1 : ℝ) ∈ exIdReg.map (scoreOf [(1 : ℝ)]) := by
    simp [exIdReg, scoreOf, cosineSim_one_one]
  have hle : ∀ s ∈ exIdReg.map (scoreOf [(1 : ℝ)]), s ≤ 1 := by
    simp [exIdReg, scoreOf, cosineSim_one_one]
  exact (C4_identify_threshold.2 exIdReg [1] 1 (by simp [exIdReg]) hmem
    hle).1 (by norm_num)

end TurboTranslate
